import Mathlib

/-
Verification of the mirbft core against its natural-language specification.

The development shallowly embeds three Go source files:
  * src/internal/checkpoint_window.go  (checkpoint quorum aggregation),
  * src/unnamed/part_000               (work-item dispatcher and the mircat
                                        replay-tool argument validation),
  * src/unnamed/part_001               (initial network state construction).

Go maps with `struct{}` values are embedded as finite sets, Go maps from
byte strings as total functions defaulting to the zero value, Go byte
slices as lists of byte values, and Go `panic` as the `none` branch of an
`Option` result.  Go's 32-bit integer arithmetic is embedded on `Int`
with an explicit two's-complement wrap.
-/

namespace Mirbft

/-! ## Checkpoint window (src/internal/checkpoint_window.go) -/

abbrev SeqNo := Nat
abbrev NodeID := Nat
abbrev BucketID := Nat

/-- Byte strings (`[]byte` in the source) as lists of byte values. -/
abbrev Bytes := List Nat

/-- The fields of `EpochConfig` read by checkpoint_window.go: the fault
bound `F` and the key set of the `Buckets` map. -/
structure EpochConfig where
  f : Nat
  buckets : Finset BucketID
deriving DecidableEq

/-- `NodeAttestation` from checkpoint_window.go. -/
structure NodeAttestation where
  node : NodeID
  attestation : Bytes
deriving DecidableEq, Repr

/-- A checkpoint protocol message `pb.Msg_Checkpoint{Value, Attestation}`. -/
inductive CMsg where
  | checkpoint (value : Bytes) (attestation : Bytes)
deriving DecidableEq, Repr

/-- The fields of `consumer.Actions` that checkpoint_window.go ever sets;
all remaining fields of the Go struct keep their zero value in this file,
so an `Actions` value here stands for a Go `Actions` with every other
field empty. -/
structure CWActions where
  broadcast : List CMsg := []
  checkpoint : List SeqNo := []
deriving DecidableEq, Repr

/-- `CheckpointWindow` from checkpoint_window.go.  `Values` is a Go map
from `string(value)` to attestation lists, embedded as a total function
defaulting to `[]`; `CommittedValue` is a `[]byte` that is `nil` until
assigned, embedded as an `Option`. -/
structure CheckpointWindow where
  number : SeqNo
  epochConfig : EpochConfig
  pendingCommits : Finset BucketID
  values : Bytes → List NodeAttestation
  committedValue : Option Bytes

/-- `NewCheckpointWindow(number, config)`. -/
def NewCheckpointWindow (number : SeqNo) (config : EpochConfig) : CheckpointWindow :=
  { number := number
    epochConfig := config
    pendingCommits := config.buckets
    values := fun _ => []
    committedValue := none }

/-- `(cw *CheckpointWindow) Committed(bucket)`: deletes the bucket from
`PendingCommits` and returns the empty action set while commits remain,
a single `Checkpoint` action once none do. -/
def CheckpointWindow.committedBucket (cw : CheckpointWindow) (bucket : BucketID) :
    CheckpointWindow × CWActions :=
  let pending := cw.pendingCommits.erase bucket
  let cw' := { cw with pendingCommits := pending }
  if 0 < pending.card then
    (cw', {})
  else
    (cw', { checkpoint := [cw.number] })

/-- `(cw *CheckpointWindow) ApplyCheckpointMsg(source, value, attestation)`:
appends the attestation to `Values[string(value)]` and assigns
`CommittedValue = value` whenever the list length exceeds `2F+1`
(the source checks neither that `CommittedValue` is still unset nor that
the attesting sources are distinct). -/
def CheckpointWindow.applyCheckpointMsg (cw : CheckpointWindow) (source : NodeID)
    (value attestation : Bytes) : CheckpointWindow × CWActions :=
  let checkpointValueNodes := cw.values value ++ [{ node := source, attestation := attestation }]
  let values' := fun v => if v = value then checkpointValueNodes else cw.values v
  let committed' :=
    if checkpointValueNodes.length > 2 * cw.epochConfig.f + 1 then some value
    else cw.committedValue
  ({ cw with values := values', committedValue := committed' }, {})

/-- `(cw *CheckpointWindow) ApplyCheckpointResult(value, attestation)`:
`none` is the `panic` branch taken when `CommittedValue` is non-nil and
differs from `value`; otherwise the window is untouched and a single
broadcast checkpoint message is returned. -/
def CheckpointWindow.applyCheckpointResult (cw : CheckpointWindow)
    (value attestation : Bytes) : Option (CheckpointWindow × CWActions) :=
  if cw.committedValue ≠ none ∧ cw.committedValue ≠ some value then
    none
  else
    some (cw, { broadcast := [CMsg.checkpoint value attestation] })

/-- Iterated `ApplyCheckpointMsg`, all calls for the same checkpoint value,
fed the listed `(source, attestation)` pairs in order. -/
def CheckpointWindow.applyMsgs (cw : CheckpointWindow) (value : Bytes)
    (msgs : List (NodeID × Bytes)) : CheckpointWindow :=
  msgs.foldl (fun w m => (w.applyCheckpointMsg m.1 value m.2).1) cw

/-- The number of pairwise-distinct source nodes in an attestation list. -/
def distinctSourceCount (l : List NodeAttestation) : Nat :=
  (l.map NodeAttestation.node).dedup.length

/-- One `ApplyCheckpointMsg` call grows the attestation list of its value by
one, keeps the epoch configuration, and re-derives `CommittedValue` from the
new list length alone. -/
lemma applyCheckpointMsg_state (cw : CheckpointWindow) (s : NodeID) (v a : Bytes) :
    ((cw.applyCheckpointMsg s v a).1.values v).length = (cw.values v).length + 1 ∧
    (cw.applyCheckpointMsg s v a).1.epochConfig = cw.epochConfig ∧
    (cw.applyCheckpointMsg s v a).1.committedValue =
      (if 2 * cw.epochConfig.f + 1 < (cw.values v).length + 1 then some v
       else cw.committedValue) := by
  simp [CheckpointWindow.applyCheckpointMsg]

/-- Invariant of repeated single-value application: `CommittedValue` is set
exactly when the accumulated attestation count for that value has crossed the
quorum threshold. -/
lemma applyMsgs_committed_aux (v : Bytes) (msgs : List (NodeID × Bytes)) :
    ∀ cw : CheckpointWindow,
      cw.committedValue =
        (if 2 * cw.epochConfig.f + 1 < (cw.values v).length then some v else none) →
      (cw.applyMsgs v msgs).committedValue =
        (if 2 * cw.epochConfig.f + 1 < (cw.values v).length + msgs.length then some v
         else none) := by
  induction msgs with
  | nil =>
    intro cw h
    simpa [CheckpointWindow.applyMsgs] using h
  | cons m ms ih =>
    intro cw h
    have hstep : (cw.applyMsgs v (m :: ms)) =
        ((cw.applyCheckpointMsg m.1 v m.2).1.applyMsgs v ms) := by
      simp [CheckpointWindow.applyMsgs]
    obtain ⟨hlen, hcfg, hcom⟩ := applyCheckpointMsg_state cw m.1 v m.2
    rw [hstep, ih _ ?_, hlen, hcfg]
    · congr 1
      simp [Nat.add_assoc, Nat.add_comm 1 ms.length]
    · rw [hcom, hcfg, hlen, h]
      rcases Nat.lt_or_ge (2 * cw.epochConfig.f + 1) ((cw.values v).length + 1) with hlt | hge
      · simp [hlt]
      · have h1 : ¬ 2 * cw.epochConfig.f + 1 < (cw.values v).length + 1 := by omega
        have h2 : ¬ 2 * cw.epochConfig.f + 1 < (cw.values v).length := by omega
        simp [h1, h2]

/-- Claim C1 counterexample: with `f = 1`, four `ApplyCheckpointMsg` calls all
from the single source node 0 move `committedValue` from unset to `[1]` (the
third call leaves it unset, the fourth sets it), although only one distinct
source has attested and 1 does not exceed `2*1 + 1 = 3`: the source counts
attestations with multiplicity, never deduplicating sources. -/
theorem claimC1_counterexample :
    ((NewCheckpointWindow 5 { f := 1, buckets := {0, 1, 2, 3} }).applyMsgs [1]
        [(0, [9]), (0, [9]), (0, [9])]).committedValue = none ∧
    ((NewCheckpointWindow 5 { f := 1, buckets := {0, 1, 2, 3} }).applyMsgs [1]
        [(0, [9]), (0, [9]), (0, [9]), (0, [9])]).committedValue = some [1] ∧
    distinctSourceCount
        (((NewCheckpointWindow 5 { f := 1, buckets := {0, 1, 2, 3} }).applyMsgs [1]
          [(0, [9]), (0, [9]), (0, [9]), (0, [9])]).values [1]) = 1 ∧
    ¬ 1 > 2 * 1 + 1 := by
  refine ⟨by decide, by decide, by decide, by decide⟩

/-- Claim C1 (amended): for a `CheckpointWindow` with parameter `f`,
`committed_value` transitions from unset to `v` if and only if strictly more
than `2f+1` attestations for `v` have been applied via `apply_checkpoint_msg`,
where attestations are counted with multiplicity (the source does not
deduplicate sources); in particular, with `f = 1`, three attestations for `v`
leave `committed_value` unset and a fourth sets it.  Stated as: a single call
sets `committed_value` exactly when the attestation count for its value
crosses `2f+1`, and on a fresh window a run of calls for one value leaves
`committed_value` equal to `some v` exactly when more than `2f+1` calls were
made. -/
theorem claimC1_quorum :
    (∀ (cw : CheckpointWindow) (s : NodeID) (v a : Bytes),
      (cw.applyCheckpointMsg s v a).1.committedValue =
        (if 2 * cw.epochConfig.f + 1 < (cw.values v).length + 1 then some v
         else cw.committedValue)) ∧
    (∀ (num : SeqNo) (cfg : EpochConfig) (v : Bytes) (msgs : List (NodeID × Bytes)),
      ((NewCheckpointWindow num cfg).applyMsgs v msgs).committedValue =
        (if 2 * cfg.f + 1 < msgs.length then some v else none)) := by
  constructor
  · intro cw s v a
    exact (applyCheckpointMsg_state cw s v a).2.2
  · intro num cfg v msgs
    have h := applyMsgs_committed_aux v msgs (NewCheckpointWindow num cfg)
      (by simp [NewCheckpointWindow])
    simpa [NewCheckpointWindow] using h

/-- Claim C2 failing input, evaluated: with `f = 1`, a quorum of four distinct
sources for value `[1]` sets `committedValue = some [1]`; a later quorum of
four distinct sources for value `[2]` overwrites it to `some [2]` —
`ApplyCheckpointMsg` never checks that `CommittedValue` is still unset before
assigning it. -/
theorem claimC2_overwrite_eval :
    ((NewCheckpointWindow 5 { f := 1, buckets := {0, 1, 2, 3} }).applyMsgs [1]
        [(0, [9]), (1, [9]), (2, [9]), (3, [9])]).committedValue = some [1] ∧
    (((NewCheckpointWindow 5 { f := 1, buckets := {0, 1, 2, 3} }).applyMsgs [1]
        [(0, [9]), (1, [9]), (2, [9]), (3, [9])]).applyMsgs [2]
        [(0, [9]), (1, [9]), (2, [9]), (3, [9])]).committedValue = some [2] ∧
    (some [1] : Option Bytes) ≠ some [2] := by
  refine ⟨by decide, by decide, by decide⟩

/-- Claim C5: `ApplyCheckpointResult(value, attestation)` takes its fatal
branch (Go `panic`, embedded as `none`) exactly when `CommittedValue` is set
and differs from `value`, producing no actions; in every other case it
returns the window unchanged together with exactly one broadcast
`Msg_Checkpoint` carrying the value and attestation. -/
theorem claimC5_applyCheckpointResult (cw : CheckpointWindow) (v a : Bytes) :
    (cw.applyCheckpointResult v a = none ↔
      ∃ c, cw.committedValue = some c ∧ c ≠ v) ∧
    (∀ r, cw.applyCheckpointResult v a = some r →
      r = (cw, { broadcast := [CMsg.checkpoint v a], checkpoint := [] })) := by
  cases h : cw.committedValue with
  | none =>
    constructor
    · simp [CheckpointWindow.applyCheckpointResult, h]
    · intro r hr
      simp [CheckpointWindow.applyCheckpointResult, h] at hr
      simp [hr.symm]
  | some c =>
    by_cases hc : c = v
    · subst hc
      constructor
      · simp [CheckpointWindow.applyCheckpointResult, h]
      · intro r hr
        simp [CheckpointWindow.applyCheckpointResult, h] at hr
        simp [hr.symm]
    · constructor
      · simp [CheckpointWindow.applyCheckpointResult, h, hc]
      · intro r hr
        simp [CheckpointWindow.applyCheckpointResult, h, hc] at hr

/-- Witness for claim C5 at a fresh window: the non-fatal branch returns
exactly the unchanged window and the single broadcast checkpoint message. -/
theorem claimC5_witness :
    (NewCheckpointWindow 0 { f := 1, buckets := {0} }).applyCheckpointResult [3] [7] =
      some (NewCheckpointWindow 0 { f := 1, buckets := {0} },
        { broadcast := [CMsg.checkpoint [3] [7]] }) ∧
    ((NewCheckpointWindow 0 { f := 1, buckets := {0} },
        ({ broadcast := [CMsg.checkpoint [3] [7]] } : CWActions)) =
      (NewCheckpointWindow 0 { f := 1, buckets := {0} },
        { broadcast := [CMsg.checkpoint [3] [7]], checkpoint := [] })) :=
  ⟨rfl,
    (claimC5_applyCheckpointResult
      (NewCheckpointWindow 0 { f := 1, buckets := {0} }) [3] [7]).2 _ rfl⟩

/-- Claim C8: `Committed(bucket)` removes the bucket from `PendingCommits`;
it returns the single `Checkpoint{seq}` action exactly when `PendingCommits`
is empty after the removal and the empty action set otherwise, and a window
built by `NewCheckpointWindow` starts with `PendingCommits` equal to the full
bucket set of the epoch. -/
theorem claimC8_committed :
    (∀ (cw : CheckpointWindow) (b : BucketID),
      (cw.committedBucket b).1.pendingCommits = cw.pendingCommits.erase b ∧
      (cw.committedBucket b).2 =
        (if cw.pendingCommits.erase b = ∅ then
          { broadcast := [], checkpoint := [cw.number] }
         else { broadcast := [], checkpoint := [] }) ∧
      ((cw.committedBucket b).2 = { broadcast := [], checkpoint := [cw.number] } ↔
        cw.pendingCommits.erase b = ∅)) ∧
    (∀ (num : SeqNo) (cfg : EpochConfig),
      (NewCheckpointWindow num cfg).pendingCommits = cfg.buckets) := by
  constructor
  · intro cw b
    by_cases h : cw.pendingCommits.erase b = ∅
    · have hcard : ¬ 0 < (cw.pendingCommits.erase b).card := by
        simp [Finset.card_eq_zero.mpr h]
      refine ⟨?_, ?_, ?_⟩ <;>
        simp [CheckpointWindow.committedBucket, hcard, h]
    · have hcard : 0 < (cw.pendingCommits.erase b).card :=
        Finset.card_pos.mpr (Finset.nonempty_of_ne_empty h)
      refine ⟨?_, ?_, ?_⟩ <;>
        simp [CheckpointWindow.committedBucket, hcard, h]
  · intro num cfg
    rfl

/-! ## Work-item dispatcher (src/unnamed/part_000, WorkItems) -/

/-- The variants of the `msgs.Msg` oneof dispatched by the work-item code. -/
inductive MsgType where
  | preprepare
  | prepare
  | commit
  | checkpoint
  | epochChange
  | epochChangeAck
  | suspect
  | newEpoch
  | newEpochEcho
  | newEpochReady
  | fetchBatch
  | forwardBatch
  | fetchRequest
  | requestAck
  | forwardRequest
deriving DecidableEq, Repr

/-- The variants of the `state.Action` oneof, each with an opaque payload
standing in for its protobuf contents (a `send` keeps the message type its
inner switch inspects). -/
inductive Action where
  | send (msg : MsgType) (data : Nat)
  | hash (data : Nat)
  | appendWriteAhead (data : Nat)
  | truncateWriteAhead (data : Nat)
  | commit (data : Nat)
  | checkpoint (data : Nat)
  | allocatedRequest (data : Nat)
  | correctRequest (data : Nat)
  | stateApplied (data : Nat)
  | forwardRequest (data : Nat)
  | stateTransfer (data : Nat)
deriving DecidableEq, Repr

/-- Events are opaque to the `WorkItems` routing helpers; an `EventList` is
a list of opaque payloads. -/
abbrev Event := Nat

/-- `WorkItems` from part_000: five action streams and two event streams,
each an ordered list that the helpers only ever append to. -/
structure WorkItems where
  walActions : List Action
  netActions : List Action
  hashActions : List Action
  clientActions : List Action
  appActions : List Action
  reqStoreEvents : List Event
  resultEvents : List Event
deriving DecidableEq, Repr

/-- `NewWorkItems()`: all streams empty. -/
def NewWorkItems : WorkItems :=
  { walActions := []
    netActions := []
    hashActions := []
    clientActions := []
    appActions := []
    reqStoreEvents := []
    resultEvents := [] }

/-- `AddHashResults`: hash completions are pushed onto `ResultEvents`. -/
def AddHashResults (wi : WorkItems) (events : List Event) : WorkItems :=
  { wi with resultEvents := wi.resultEvents ++ events }

/-- `AddNetResults`: network completions are pushed onto `ResultEvents`. -/
def AddNetResults (wi : WorkItems) (events : List Event) : WorkItems :=
  { wi with resultEvents := wi.resultEvents ++ events }

/-- `AddAppResults`: application completions are pushed onto `ResultEvents`. -/
def AddAppResults (wi : WorkItems) (events : List Event) : WorkItems :=
  { wi with resultEvents := wi.resultEvents ++ events }

/-- `AddClientResults`: client completions are pushed onto `ReqStoreEvents`. -/
def AddClientResults (wi : WorkItems) (events : List Event) : WorkItems :=
  { wi with reqStoreEvents := wi.reqStoreEvents ++ events }

/-- `AddWALResults`: WAL completions are pushed onto `NetActions`. -/
def AddWALResults (wi : WorkItems) (actions : List Action) : WorkItems :=
  { wi with netActions := wi.netActions ++ actions }

/-- `AddReqStoreResults`: request-store completions are pushed onto
`ResultEvents`. -/
def AddReqStoreResults (wi : WorkItems) (events : List Event) : WorkItems :=
  { wi with resultEvents := wi.resultEvents ++ events }

/-- The inner switch of `AddStateMachineResults` on a `Send` action: the
message types that may go straight to the network (the Go code sets
`walDependent = false` for exactly these and `true` in the default case). -/
def netSafe : MsgType → Bool
  | .requestAck => true
  | .checkpoint => true
  | .fetchBatch => true
  | .forwardBatch => true
  | _ => false

/-- One iteration of the loop body of `AddStateMachineResults`, routing a
single action.  `forwardRequest` matches the source's `// XXX address` case,
which pushes to no stream. -/
def routeAction (wi : WorkItems) (a : Action) : WorkItems :=
  match a with
  | .send msg _ =>
    if netSafe msg then { wi with netActions := wi.netActions ++ [a] }
    else { wi with walActions := wi.walActions ++ [a] }
  | .hash _ => { wi with hashActions := wi.hashActions ++ [a] }
  | .appendWriteAhead _ => { wi with walActions := wi.walActions ++ [a] }
  | .truncateWriteAhead _ => { wi with walActions := wi.walActions ++ [a] }
  | .commit _ => { wi with appActions := wi.appActions ++ [a] }
  | .checkpoint _ => { wi with appActions := wi.appActions ++ [a] }
  | .allocatedRequest _ => { wi with clientActions := wi.clientActions ++ [a] }
  | .correctRequest _ => { wi with clientActions := wi.clientActions ++ [a] }
  | .stateApplied _ => { wi with clientActions := wi.clientActions ++ [a] }
  | .forwardRequest _ => wi
  | .stateTransfer _ => { wi with appActions := wi.appActions ++ [a] }

/-- `AddStateMachineResults(actions)`: iterates the action list in order,
routing each action. -/
def AddStateMachineResults (wi : WorkItems) (actions : List Action) : WorkItems :=
  actions.foldl routeAction wi

/-- The five action work streams. -/
inductive WorkStream where
  | wal
  | net
  | hashS
  | client
  | app
deriving DecidableEq, Repr

/-- Projection of a `WorkItems` onto one action stream. -/
def WorkItems.stream (wi : WorkItems) : WorkStream → List Action
  | .wal => wi.walActions
  | .net => wi.netActions
  | .hashS => wi.hashActions
  | .client => wi.clientActions
  | .app => wi.appActions

/-- The stream that `AddStateMachineResults` routes each action variant to
(`none` for the unassigned `forwardRequest`). -/
def streamOf : Action → Option WorkStream
  | .send msg _ => if netSafe msg then some .net else some .wal
  | .hash _ => some .hashS
  | .appendWriteAhead _ => some .wal
  | .truncateWriteAhead _ => some .wal
  | .commit _ => some .app
  | .checkpoint _ => some .app
  | .allocatedRequest _ => some .client
  | .correctRequest _ => some .client
  | .stateApplied _ => some .client
  | .forwardRequest _ => none
  | .stateTransfer _ => some .app

/-- Routing one action appends it to exactly the stream named by `streamOf`
and leaves every other stream untouched. -/
lemma routeAction_stream (wi : WorkItems) (a : Action) (s : WorkStream) :
    (routeAction wi a).stream s =
      wi.stream s ++ (if streamOf a = some s then [a] else []) := by
  cases a with
  | send msg d =>
    cases hn : netSafe msg <;> cases s <;>
      simp [routeAction, streamOf, WorkItems.stream, hn]
  | hash d => cases s <;> simp [routeAction, streamOf, WorkItems.stream]
  | appendWriteAhead d => cases s <;> simp [routeAction, streamOf, WorkItems.stream]
  | truncateWriteAhead d => cases s <;> simp [routeAction, streamOf, WorkItems.stream]
  | commit d => cases s <;> simp [routeAction, streamOf, WorkItems.stream]
  | checkpoint d => cases s <;> simp [routeAction, streamOf, WorkItems.stream]
  | allocatedRequest d => cases s <;> simp [routeAction, streamOf, WorkItems.stream]
  | correctRequest d => cases s <;> simp [routeAction, streamOf, WorkItems.stream]
  | stateApplied d => cases s <;> simp [routeAction, streamOf, WorkItems.stream]
  | forwardRequest d => cases s <;> simp [routeAction, streamOf, WorkItems.stream]
  | stateTransfer d => cases s <;> simp [routeAction, streamOf, WorkItems.stream]

/-- `AddStateMachineResults` leaves every action stream equal to its old
contents followed by, in input order, exactly the input actions destined for
that stream. -/
lemma addStateMachineResults_stream (l : List Action) :
    ∀ (wi : WorkItems) (s : WorkStream),
      (AddStateMachineResults wi l).stream s =
        wi.stream s ++ l.filter (fun a => decide (streamOf a = some s)) := by
  induction l with
  | nil => intro wi s; simp [AddStateMachineResults]
  | cons a t ih =>
    intro wi s
    have hfold : AddStateMachineResults wi (a :: t) =
        AddStateMachineResults (routeAction wi a) t := by
      simp [AddStateMachineResults]
    rw [hfold, ih, routeAction_stream]
    by_cases h : streamOf a = some s <;> simp [h]

/-- The inner switch of the send case recognises exactly the four
WAL-independent message types. -/
lemma netSafe_eq_true_iff (msg : MsgType) :
    netSafe msg = true ↔
      (msg = .requestAck ∨ msg = .checkpoint ∨ msg = .fetchBatch ∨ msg = .forwardBatch) := by
  cases msg <;> simp [netSafe]

/-- Claim C3: `AddStateMachineResults` routes every `Send` whose message type
is one of RequestAck, Checkpoint, FetchBatch, ForwardBatch to the Net stream
and every `Send` of any other message type to the WAL stream; a lone
`Send(RequestAck)` fed to fresh work items appears on the Net stream and
never on the WAL stream. -/
theorem claimC3_sendRouting :
    (∀ (wi : WorkItems) (l : List Action) (msg : MsgType) (d : Nat),
      Action.send msg d ∈ l →
      ((msg = .requestAck ∨ msg = .checkpoint ∨ msg = .fetchBatch ∨ msg = .forwardBatch) →
        Action.send msg d ∈ (AddStateMachineResults wi l).netActions) ∧
      (¬ (msg = .requestAck ∨ msg = .checkpoint ∨ msg = .fetchBatch ∨ msg = .forwardBatch) →
        Action.send msg d ∈ (AddStateMachineResults wi l).walActions)) ∧
    (AddStateMachineResults NewWorkItems [Action.send .requestAck 0]).netActions =
      [Action.send .requestAck 0] ∧
    (AddStateMachineResults NewWorkItems [Action.send .requestAck 0]).walActions = [] := by
  refine ⟨?_, by decide, by decide⟩
  intro wi l msg d hmem
  constructor
  · intro hsafe
    have hns : netSafe msg = true := (netSafe_eq_true_iff msg).mpr hsafe
    have hs : streamOf (Action.send msg d) = some .net := by simp [streamOf, hns]
    show Action.send msg d ∈ (AddStateMachineResults wi l).stream .net
    rw [addStateMachineResults_stream]
    refine List.mem_append_right _ ?_
    rw [List.mem_filter]
    exact ⟨hmem, by simp [hs]⟩
  · intro hunsafe
    have hns : netSafe msg = false := by
      cases hnb : netSafe msg with
      | true => exact absurd ((netSafe_eq_true_iff msg).mp hnb) hunsafe
      | false => rfl
    have hs : streamOf (Action.send msg d) = some .wal := by simp [streamOf, hns]
    show Action.send msg d ∈ (AddStateMachineResults wi l).stream .wal
    rw [addStateMachineResults_stream]
    refine List.mem_append_right _ ?_
    rw [List.mem_filter]
    exact ⟨hmem, by simp [hs]⟩

/-- Witness for claim C3: a WAL-independent checkpoint send lands on the Net
stream and a WAL-dependent prepare send lands on the WAL stream. -/
theorem claimC3_witness :
    Action.send .checkpoint 1 ∈
      (AddStateMachineResults NewWorkItems
        [Action.send .checkpoint 1, Action.send .prepare 2]).netActions ∧
    Action.send .prepare 2 ∈
      (AddStateMachineResults NewWorkItems
        [Action.send .checkpoint 1, Action.send .prepare 2]).walActions :=
  ⟨(claimC3_sendRouting.1 NewWorkItems
      [Action.send .checkpoint 1, Action.send .prepare 2] .checkpoint 1
      (by decide)).1 (Or.inr (Or.inl rfl)),
   (claimC3_sendRouting.1 NewWorkItems
      [Action.send .checkpoint 1, Action.send .prepare 2] .prepare 2
      (by decide)).2 (by decide)⟩

/-- Claim C4 counterexample: a `ForwardRequest` action is silently dropped —
fed alone to fresh work items it appears on none of the five streams, the
work items coming back entirely empty, refuting the claim that every action
of the input list appears in some stream afterwards. -/
theorem claimC4_counterexample :
    Action.forwardRequest 5 ∈ [Action.forwardRequest 5] ∧
    AddStateMachineResults NewWorkItems [Action.forwardRequest 5] = NewWorkItems ∧
    (AddStateMachineResults NewWorkItems [Action.forwardRequest 5]).walActions = [] ∧
    (AddStateMachineResults NewWorkItems [Action.forwardRequest 5]).netActions = [] ∧
    (AddStateMachineResults NewWorkItems [Action.forwardRequest 5]).hashActions = [] ∧
    (AddStateMachineResults NewWorkItems [Action.forwardRequest 5]).clientActions = [] ∧
    (AddStateMachineResults NewWorkItems [Action.forwardRequest 5]).appActions = [] := by
  refine ⟨by decide, rfl, rfl, rfl, rfl, rfl, rfl⟩

/-- Claim C4 (amended): every action variant except `ForwardRequest` is
assigned to exactly one of the five work streams, and every non-ForwardRequest
action of any input list appears in its assigned stream afterwards;
`ForwardRequest` actions have no stream assignment (the source's
`// XXX address` case) and are dropped, leaving the work items unchanged. -/
theorem claimC4_classification :
    (∀ a : Action, (∀ d, a ≠ .forwardRequest d) → ∃! s, streamOf a = some s) ∧
    (∀ (wi : WorkItems) (l : List Action) (a : Action) (s : WorkStream),
      a ∈ l → streamOf a = some s → a ∈ (AddStateMachineResults wi l).stream s) ∧
    (∀ (wi : WorkItems) (d : Nat), AddStateMachineResults wi [Action.forwardRequest d] = wi) := by
  refine ⟨?_, ?_, ?_⟩
  · intro a ha
    have hex : ∃ s, streamOf a = some s := by
      cases a with
      | send msg d =>
        cases hn : netSafe msg with
        | true => exact ⟨WorkStream.net, by simp [streamOf, hn]⟩
        | false => exact ⟨WorkStream.wal, by simp [streamOf, hn]⟩
      | forwardRequest d => exact absurd rfl (ha d)
      | hash d => exact ⟨_, rfl⟩
      | appendWriteAhead d => exact ⟨_, rfl⟩
      | truncateWriteAhead d => exact ⟨_, rfl⟩
      | commit d => exact ⟨_, rfl⟩
      | checkpoint d => exact ⟨_, rfl⟩
      | allocatedRequest d => exact ⟨_, rfl⟩
      | correctRequest d => exact ⟨_, rfl⟩
      | stateApplied d => exact ⟨_, rfl⟩
      | stateTransfer d => exact ⟨_, rfl⟩
    obtain ⟨s, hs⟩ := hex
    exact ⟨s, hs, fun s2 hs2 => by rw [hs] at hs2; exact (Option.some_injective _ hs2).symm⟩
  · intro wi l a s hmem hs
    rw [addStateMachineResults_stream]
    refine List.mem_append_right _ ?_
    rw [List.mem_filter]
    exact ⟨hmem, by simp [hs]⟩
  · intro wi d
    rfl

/-- Witness for claim C4: a lone `Hash` action is assigned the hash stream
and appears there. -/
theorem claimC4_witness :
    (∃! s, streamOf (Action.commit 0) = some s) ∧
    Action.hash 3 ∈ (AddStateMachineResults NewWorkItems [Action.hash 3]).stream .hashS ∧
    AddStateMachineResults NewWorkItems [Action.forwardRequest 9] = NewWorkItems :=
  ⟨claimC4_classification.1 (Action.commit 0) (fun d h => by cases h),
   claimC4_classification.2.1 NewWorkItems [Action.hash 3] (Action.hash 3) .hashS
     (by decide) rfl,
   claimC4_classification.2.2 NewWorkItems 9⟩

/-- Claim C6: each worker-result helper appends its input to exactly one
stream and touches nothing else — `AddWALResults` to Net actions,
`AddClientResults` to ReqStore events, and `AddNetResults`, `AddHashResults`,
`AddAppResults`, `AddReqStoreResults` all to Result events. -/
theorem claimC6_resultRouting :
    ∀ (wi : WorkItems) (events : List Event) (actions : List Action),
      AddWALResults wi actions = { wi with netActions := wi.netActions ++ actions } ∧
      AddClientResults wi events =
        { wi with reqStoreEvents := wi.reqStoreEvents ++ events } ∧
      AddNetResults wi events = { wi with resultEvents := wi.resultEvents ++ events } ∧
      AddHashResults wi events = { wi with resultEvents := wi.resultEvents ++ events } ∧
      AddAppResults wi events = { wi with resultEvents := wi.resultEvents ++ events } ∧
      AddReqStoreResults wi events =
        { wi with resultEvents := wi.resultEvents ++ events } := by
  intro wi events actions
  exact ⟨rfl, rfl, rfl, rfl, rfl, rfl⟩

/-- Claim C7: `AddStateMachineResults` only appends: every stream afterwards
is its previous contents followed by exactly the input actions classified to
it, kept in input order (the appended part is a sublist of the input, so any
two same-stream actions keep their relative input order). -/
theorem claimC7_orderPreserved :
    ∀ (wi : WorkItems) (l : List Action) (s : WorkStream),
      (AddStateMachineResults wi l).stream s =
        wi.stream s ++ l.filter (fun a => decide (streamOf a = some s)) ∧
      (l.filter (fun a => decide (streamOf a = some s))).Sublist l := by
  intro wi l s
  exact ⟨addStateMachineResults_stream l wi s, List.filter_sublist l⟩

/-! ## Initial network state (src/unnamed/part_001) -/

/-- Go's conversion to `int32`: two's-complement wrap into
`[-2^31, 2^31)`.  Go's `int32 * int32` arithmetic is this wrap applied to
the exact product. -/
def toInt32 (x : Int) : Int := (x + 2 ^ 31) % 2 ^ 32 - 2 ^ 31

/-- Go's conversion to `uint64`: wrap into `[0, 2^64)`. -/
def toUInt64w (x : Int) : Int := x % 2 ^ 64

/-- `msgs.NetworkState_Client` as built by `StandardInitialNetworkState`. -/
structure NetworkStateClient where
  id : Nat
  width : Nat
  lowWatermark : Nat
deriving DecidableEq, Repr

/-- `msgs.NetworkState_Config`: node identifiers are `uint64` (embedded as
`Nat`), the remaining numeric fields are `int32` (embedded as wrapped
`Int`), `MaxEpochLength` is `uint64`. -/
structure NetworkStateConfig where
  nodes : List Nat
  f : Int
  numberOfBuckets : Int
  checkpointInterval : Int
  maxEpochLength : Int
deriving DecidableEq, Repr

/-- `msgs.NetworkState`. -/
structure NetworkState where
  config : NetworkStateConfig
  clients : List NetworkStateClient
deriving DecidableEq, Repr

/-- `StandardInitialNetworkState(nodeCount, clientCount)` from part_001.
The Go locals are inlined: `numberOfBuckets = int32(nodeCount)`,
`checkpointInterval = numberOfBuckets * 5` (int32 arithmetic),
`maxEpochLength = checkpointInterval * 10` (int32) cast to `uint64`.
The node loop produces `List.range nodeCount.toNat`, matching Go's
`for i := 0; i < n; i++` for every `int` argument (zero iterations when
`nodeCount` is negative).  The clients slice comes from
`make([]*msgs.NetworkState_Client, clientCount)`, whose runtime panics on a
negative length; that panic is embedded as `none` (the allocator's
platform-dependent maximum-size limit is not modelled). -/
def StandardInitialNetworkState (nodeCount clientCount : Int) : Option NetworkState :=
  if clientCount < 0 then
    none
  else
    some
      { config :=
          { nodes := List.range nodeCount.toNat
            f := toInt32 ((nodeCount - 1).tdiv 3)
            numberOfBuckets := toInt32 nodeCount
            checkpointInterval := toInt32 (toInt32 nodeCount * 5)
            maxEpochLength := toUInt64w (toInt32 (toInt32 (toInt32 nodeCount * 5) * 10)) }
        clients := (List.range clientCount.toNat).map
          (fun i => { id := i, width := 100, lowWatermark := 0 }) }

/-- The int32 wrap is the identity on values already in range. -/
lemma toInt32_eq_self (x : Int) (h1 : -(2 ^ 31) ≤ x) (h2 : x < 2 ^ 31) :
    toInt32 x = x := by
  simp only [toInt32]
  omega

/-- The int32 wrap never increases a nonnegative value. -/
lemma toInt32_le (x : Int) (h : 0 ≤ x) : toInt32 x ≤ x := by
  simp only [toInt32]
  omega

/-- Claim C9 counterexample: at `nodeCount = 429496730` and
`clientCount = 0` the function returns a state, but the int32 product
`int32(nodeCount) * 5` overflows, so the returned `CheckpointInterval` is
`-2147483646`, not `5 * nodeCount = 2147483650` — the claim's field
equation fails at this `nodeCount ≥ 1`, `clientCount ≥ 0`. -/
theorem claimC9_counterexample :
    StandardInitialNetworkState 429496730 0 ≠ none ∧
    (StandardInitialNetworkState 429496730 0).map
      (fun s => s.config.checkpointInterval) = some (-2147483646) ∧
    ¬ (StandardInitialNetworkState 429496730 0).map
      (fun s => s.config.checkpointInterval) = some (5 * 429496730) ∧
    (1 : Int) ≤ 429496730 ∧ (0 : Int) ≤ 0 := by
  refine ⟨by decide, by decide, by decide, by decide, by decide⟩

/-- Claim C9 (amended): for every `nodeCount ≥ 1` and `clientCount ≥ 0` a
state is returned and it satisfies the NetworkConfig invariant
`3*f + 1 ≤ |nodes|`; and whenever additionally `nodeCount ≤ 429496729`
(so that `int32(nodeCount) * 5` cannot overflow), the returned state's
fields are exactly `f = (nodeCount-1)/3` (truncating division),
`nodes = [0..nodeCount-1]`, `num_buckets = nodeCount`, and
`checkpoint_interval = 5 * nodeCount`. -/
theorem claimC9_initialNetworkState :
    (∀ nodeCount clientCount : Int, 1 ≤ nodeCount → 0 ≤ clientCount →
      ∃ s, StandardInitialNetworkState nodeCount clientCount = some s ∧
        3 * s.config.f + 1 ≤ (s.config.nodes.length : Int)) ∧
    (∀ nodeCount clientCount : Int, 1 ≤ nodeCount → 0 ≤ clientCount →
        nodeCount ≤ 429496729 →
      ∃ s, StandardInitialNetworkState nodeCount clientCount = some s ∧
        s.config.f = (nodeCount - 1) / 3 ∧
        s.config.nodes = List.range nodeCount.toNat ∧
        s.config.numberOfBuckets = nodeCount ∧
        s.config.checkpointInterval = 5 * nodeCount) := by
  constructor
  · intro n c h1 hc
    have hne : ¬ c < 0 := by omega
    unfold StandardInitialNetworkState
    rw [if_neg hne]
    refine ⟨_, rfl, ?_⟩
    have htd : (n - 1).tdiv 3 = (n - 1) / 3 := Int.tdiv_eq_ediv (by omega) (by omega)
    have hle : toInt32 ((n - 1) / 3) ≤ (n - 1) / 3 := toInt32_le _ (by omega)
    have hcast : ((n.toNat : Int)) = n := Int.toNat_of_nonneg (by omega)
    simp only [List.length_range, htd, hcast]
    omega
  · intro n c h1 hc h2
    have hne : ¬ c < 0 := by omega
    unfold StandardInitialNetworkState
    rw [if_neg hne]
    have htd : (n - 1).tdiv 3 = (n - 1) / 3 := Int.tdiv_eq_ediv (by omega) (by omega)
    refine ⟨_, rfl, ?_, rfl, ?_, ?_⟩
    · simp only [htd]
      exact toInt32_eq_self _ (by omega) (by omega)
    · exact toInt32_eq_self _ (by omega) (by omega)
    · have hb : toInt32 n = n := toInt32_eq_self _ (by omega) (by omega)
      simp only [hb]
      rw [toInt32_eq_self _ (by omega) (by omega)]
      ring

/-- Witness for claim C9 at `nodeCount = 4`, `clientCount = 1`: a state is
returned, the invariant holds and the checkpoint interval is `5 * 4`. -/
theorem claimC9_witness :
    (∃ s, StandardInitialNetworkState 4 1 = some s ∧
      3 * s.config.f + 1 ≤ (s.config.nodes.length : Int)) ∧
    (∃ s, StandardInitialNetworkState 4 1 = some s ∧
      s.config.checkpointInterval = 5 * 4) := by
  refine ⟨claimC9_initialNetworkState.1 4 1 (by norm_num) (by norm_num), ?_⟩
  obtain ⟨s, hs, hrest⟩ :=
    claimC9_initialNetworkState.2 4 1 (by norm_num) (by norm_num) (by norm_num)
  exact ⟨s, hs, hrest.2.2.2⟩

/-! ## mircat argument validation (src/unnamed/part_000, parseArgs) -/

/-- The eight recorded event type names of `allEventTypes`. -/
inductive EventTypeKind where
  | initialization
  | loadEntry
  | completeInitialization
  | tick
  | step
  | propose
  | addResults
  | actionsReceived
deriving DecidableEq, Repr

/-- The three rejections of the post-parse switch in `parseArgs`
(each an `errors.Errorf` in the source). -/
inductive ParseError where
  | bothEventTypeFlags
  | bothStepTypeFlags
  | statusIndexWithoutInteractive
deriving DecidableEq, Repr

/-- The `arguments` struct of mircat.  Repeatable kingpin flags are Go
slices that are `nil` exactly when the flag was never given, embedded as
`Option`; enum-constrained flags carry their element type.  The opened
input file is an opaque handle. -/
structure Arguments where
  input : Nat
  interactive : Bool
  nodeIDs : Option (List Nat)
  eventTypes : Option (List EventTypeKind)
  notEventTypes : Option (List EventTypeKind)
  stepTypes : Option (List MsgType)
  notStepTypes : Option (List MsgType)
  statusIndices : Option (List Nat)
  verboseText : Bool
deriving DecidableEq, Repr

/-- The validation switch of `parseArgs` and the construction of the
`arguments` value, applied to the flag values kingpin delivered (kingpin
itself already confined enum flags to their sets). -/
def parseTheArgs (input : Nat) (interactive : Bool) (nodeIDs : Option (List Nat))
    (eventTypes notEventTypes : Option (List EventTypeKind))
    (stepTypes notStepTypes : Option (List MsgType))
    (verboseText : Bool) (statusIndices : Option (List Nat)) :
    Except ParseError Arguments :=
  if eventTypes ≠ none ∧ notEventTypes ≠ none then
    .error .bothEventTypeFlags
  else if stepTypes ≠ none ∧ notStepTypes ≠ none then
    .error .bothStepTypeFlags
  else if statusIndices ≠ none ∧ interactive = false then
    .error .statusIndexWithoutInteractive
  else
    .ok { input := input
          interactive := interactive
          nodeIDs := nodeIDs
          eventTypes := eventTypes
          notEventTypes := notEventTypes
          stepTypes := stepTypes
          notStepTypes := notStepTypes
          statusIndices := statusIndices
          verboseText := verboseText }

/-- Claim C10: the replay-tool argument validation rejects exactly the
combinations (both `--eventType` and `--notEventType`), (both `--stepType`
and `--notStepType`), and (`--statusIndex` without `--interactive`); every
other combination is accepted and the resulting `arguments` value
reproduces every given flag value. -/
theorem claimC10_parseArgs :
    ∀ (inp : Nat) (inter : Bool) (nids : Option (List Nat))
      (et net : Option (List EventTypeKind)) (st nst : Option (List MsgType))
      (vt : Bool) (si : Option (List Nat)),
      ((∃ e, parseTheArgs inp inter nids et net st nst vt si = .error e) ↔
        ((et ≠ none ∧ net ≠ none) ∨ (st ≠ none ∧ nst ≠ none) ∨
          (si ≠ none ∧ inter = false))) ∧
      (parseTheArgs inp inter nids et net st nst vt si =
          .ok { input := inp
                interactive := inter
                nodeIDs := nids
                eventTypes := et
                notEventTypes := net
                stepTypes := st
                notStepTypes := nst
                statusIndices := si
                verboseText := vt } ↔
        ¬ ((et ≠ none ∧ net ≠ none) ∨ (st ≠ none ∧ nst ≠ none) ∨
          (si ≠ none ∧ inter = false))) := by
  intro inp inter nids et net st nst vt si
  unfold parseTheArgs
  split_ifs with h1 h2 h3
  · constructor
    · simp only [iff_true_intro (Or.inl h1), iff_true]
      exact ⟨_, rfl⟩
    · constructor
      · intro h
        exact absurd h (by simp)
      · intro h
        exact absurd (Or.inl h1) h
  · constructor
    · simp only [iff_true_intro (Or.inr (Or.inl h2)), iff_true]
      exact ⟨_, rfl⟩
    · constructor
      · intro h
        exact absurd h (by simp)
      · intro h
        exact absurd (Or.inr (Or.inl h2)) h
  · constructor
    · simp only [iff_true_intro (Or.inr (Or.inr h3)), iff_true]
      exact ⟨_, rfl⟩
    · constructor
      · intro h
        exact absurd h (by simp)
      · intro h
        exact absurd (Or.inr (Or.inr h3)) h
  · constructor
    · constructor
      · rintro ⟨e, he⟩
        exact absurd he (by simp)
      · intro h
        rcases h with h | h | h
        · exact absurd h h1
        · exact absurd h h2
        · exact absurd h h3
    · constructor
      · intro _
        intro h
        rcases h with h | h | h
        · exact absurd h h1
        · exact absurd h h2
        · exact absurd h h3
      · intro _
        rfl

end Mirbft
